import Mathlib

/-!
Verification of the fluxion file runtime core against its specification.

The TypeScript sources under `src/workers` are shallowly embedded here:

* pure helpers (`normalizeDbSet`, `isDbSubset`, `matchWorkerByDbRequirement`,
  `buildHandlerCandidates`, `resolveHandlerFile`, `resolveWorkerDefinitions`,
  path parsing and the static-dispatch decision) become Lean functions;
* filesystem access (`fs.promises.stat`) becomes an oracle argument
  (`ver` for the version oracle, `isFile` for static stats), and dynamic
  `import()` becomes an oracle returning a parsed module default export;
* the worker pool (`HandlerWorkerPoolImpl`) becomes a state machine
  (`PoolState` with a step function over `PoolEvent`s);
* the in-worker response sink (`MemoryServerResponse`) becomes a record
  transformed by handler operations, with byte buffers as `List Nat`.

JavaScript strings are embedded as `String`; the JS builtins used by the
sources are embedded as character-level functions: `trim` as `jsTrim`,
`toLowerCase` as `jsToLowerCase` (ASCII-exact), `localeCompare`-based
ascending sorts as sorting by the codepoint order `strLe`. Absolute
filesystem paths are modelled as their segment lists (`List String`), which
is faithful for the POSIX paths the runtime builds from validated segments.
-/

attribute [local semireducible] List.mergeSort List.merge

namespace Fluxion

/-- Decidable equality for `Except`, used to evaluate the embedded functions
at concrete inputs. -/
instance {ε α : Type} [DecidableEq ε] [DecidableEq α] : DecidableEq (Except ε α) := fun
  | .ok a, .ok b =>
      if h : a = b then isTrue (by rw [h])
      else isFalse (by intro hc; cases hc; exact h rfl)
  | .ok _, .error _ => isFalse (by intro hc; cases hc)
  | .error _, .ok _ => isFalse (by intro hc; cases hc)
  | .error e, .error f =>
      if h : e = f then isTrue (by rw [h])
      else isFalse (by intro hc; cases hc; exact h rfl)

/-- JavaScript whitespace test used by `String.prototype.trim` (the ASCII
whitespace characters; the sources only trim configuration names). -/
def jsIsWhitespace (c : Char) : Bool :=
  c = ' ' ∨ c = '\t' ∨ c = '\n' ∨ c = '\r' ∨ c = '\x0b' ∨ c = '\x0c'

/-- JavaScript `String.prototype.trim`, embedded at the character level. -/
def jsTrim (s : String) : String :=
  ⟨((s.data.dropWhile jsIsWhitespace).reverse.dropWhile jsIsWhitespace).reverse⟩

/-- JavaScript `String.prototype.toLowerCase`, embedded as a character map
(ASCII-exact). -/
def jsToLowerCase (s : String) : String :=
  ⟨s.data.map Char.toLower⟩

/-- Codepoint-wise lexicographic `≤` on character lists. -/
def charListLe : List Char → List Char → Bool
  | [], _ => true
  | _ :: _, [] => false
  | a :: as, b :: bs =>
      if a.toNat < b.toNat then true
      else if b.toNat < a.toNat then false
      else charListLe as bs

/-- Comparison used for `Array.prototype.sort((l, r) => l.localeCompare(r))`,
embedded as the codepoint order on strings. -/
def strLe (l r : String) : Bool :=
  charListLe l.data r.data

theorem charListLe_refl (l : List Char) : charListLe l l = true := by
  induction l with
  | nil => rfl
  | cons a as ih => simp [charListLe, ih]

theorem charListLe_trans (a b c : List Char)
    (hab : charListLe a b = true) (hbc : charListLe b c = true) :
    charListLe a c = true := by
  induction a generalizing b c with
  | nil => rfl
  | cons x xs ih =>
    cases b with
    | nil => simp [charListLe] at hab
    | cons y ys =>
      cases c with
      | nil => simp [charListLe] at hbc
      | cons z zs =>
        simp only [charListLe] at hab hbc ⊢
        rcases Nat.lt_trichotomy x.toNat y.toNat with h1 | h1 | h1
        · rcases Nat.lt_trichotomy y.toNat z.toNat with h2 | h2 | h2
          · simp [show x.toNat < z.toNat by omega]
          · simp [show x.toNat < z.toNat by omega]
          · simp [h2, Nat.lt_asymm h2] at hbc
        · rcases Nat.lt_trichotomy y.toNat z.toNat with h2 | h2 | h2
          · simp [show x.toNat < z.toNat by omega]
          · simp only [h1, h2, lt_self_iff_false, if_false] at hab hbc ⊢
            exact ih ys zs hab hbc
          · simp [h2, Nat.lt_asymm h2] at hbc
        · simp [h1, Nat.lt_asymm h1] at hab

theorem charListLe_total (a b : List Char) :
    (charListLe a b || charListLe b a) = true := by
  induction a generalizing b with
  | nil => simp [charListLe]
  | cons x xs ih =>
    cases b with
    | nil => simp [charListLe]
    | cons y ys =>
      simp only [charListLe]
      rcases Nat.lt_trichotomy x.toNat y.toNat with h | h | h
      · simp [h]
      · simp only [h, lt_self_iff_false, if_false]
        exact ih ys
      · simp [h, Nat.lt_asymm h]

theorem strLe_refl (s : String) : strLe s s = true :=
  charListLe_refl s.data

theorem strLe_trans (a b c : String)
    (hab : strLe a b = true) (hbc : strLe b c = true) : strLe a c = true :=
  charListLe_trans a.data b.data c.data hab hbc

theorem strLe_total (a b : String) : (strLe a b || strLe b a) = true :=
  charListLe_total a.data b.data

/-- From `file-runtime.ts` (`normalizeDbSet`): trims names, drops empties and
duplicates in input order, then sorts. -/
def normalizeDbSet (input : List String) : List String :=
  let deduped := input.foldl
    (fun acc raw =>
      let name := jsTrim raw
      if name.length = 0 ∨ acc.contains name then acc else acc ++ [name])
    []
  deduped.mergeSort strLe

/-- From `file-runtime.ts` (`isSameDbSet`): length check plus pointwise
equality. -/
def isSameDbSet (left right : List String) : Bool :=
  left.length == right.length && (left.zip right).all fun p => p.1 == p.2

/-- From `file-runtime.ts` (`isDbSubset`): every required name is in the
available set (the `Set` is embedded as list membership). -/
def isDbSubset (required : List String) (available : List String) : Bool :=
  required.all fun name => available.contains name

/-- Runtime worker binding as used for routing (`WorkerBinding` in
`file-runtime.ts`); `inflight` holds the value `pool.getSnapshot().inflight`
read at match time, and `dbNameSet` is embedded as `dbSet` membership. -/
structure WorkerBinding where
  id : String
  dbSet : List String
  inflight : Nat
deriving Repr, DecidableEq

/-- Sort row built inside `matchWorkerByDbRequirement`. -/
structure MatchCandidate where
  worker : WorkerBinding
  inflight : Nat
  dbSize : Nat
deriving Repr, DecidableEq

/-- The comparator of `matchWorkerByDbRequirement` (negative/zero result means
`l` sorts no later than `r`): `(dbSize asc, inflight asc, id asc)`. -/
def candidateLe (l r : MatchCandidate) : Bool :=
  if l.dbSize ≠ r.dbSize then decide (l.dbSize < r.dbSize)
  else if l.inflight ≠ r.inflight then decide (l.inflight < r.inflight)
  else strLe l.worker.id r.worker.id

/-- Candidate rows built inside `matchWorkerByDbRequirement`: satisfying
bindings paired with their snapshot inflight and db-set size. -/
def matchCandidates (requiredDb : List String) (workers : List WorkerBinding) :
    List MatchCandidate :=
  (workers.filter fun w => isDbSubset (normalizeDbSet requiredDb) w.dbSet).map
    fun w => MatchCandidate.mk w w.inflight w.dbSet.length

/-- From `file-runtime.ts` (`matchWorkerByDbRequirement`): filter bindings by
db-subset, sort by `(dbSize, inflight, id)`, return the first. -/
def matchWorkerByDbRequirement (requiredDb : List String) (workers : List WorkerBinding) :
    Except String WorkerBinding :=
  if (matchCandidates requiredDb workers).isEmpty then
    .error ("No worker can satisfy handler db requirement: [" ++
      String.intercalate ", " (normalizeDbSet requiredDb) ++ "]")
  else
    match (matchCandidates requiredDb workers).mergeSort candidateLe with
    | [] => .error "No worker can satisfy handler db requirement: []"
    | c :: _ => .ok c.worker

/-- Propositional reading of the comparator: lexicographic order on
`(dbSize, inflight, id)`. -/
def candidateKeyLE (l r : MatchCandidate) : Prop :=
  l.dbSize < r.dbSize ∨ (l.dbSize = r.dbSize ∧
    (l.inflight < r.inflight ∨ (l.inflight = r.inflight ∧
      strLe l.worker.id r.worker.id = true)))

theorem candidateLe_iff (a b : MatchCandidate) :
    candidateLe a b = true ↔ candidateKeyLE a b := by
  unfold candidateLe candidateKeyLE
  by_cases h1 : a.dbSize = b.dbSize
  · by_cases h2 : a.inflight = b.inflight
    · simp [h1, h2]
    · simp [h1, h2]
  · simp [h1]

theorem candidateLe_trans (a b c : MatchCandidate)
    (hab : candidateLe a b = true) (hbc : candidateLe b c = true) :
    candidateLe a c = true := by
  rw [candidateLe_iff] at hab hbc ⊢
  unfold candidateKeyLE at hab hbc ⊢
  rcases hab with h | ⟨h, hin⟩
  · rcases hbc with h2 | ⟨h2, _⟩
    · exact Or.inl (h.trans h2)
    · exact Or.inl (h2 ▸ h)
  · rcases hbc with h2 | ⟨h2, hin2⟩
    · exact Or.inl (h ▸ h2)
    · refine Or.inr ⟨h.trans h2, ?_⟩
      rcases hin with h3 | ⟨h3, hid⟩
      · rcases hin2 with h4 | ⟨h4, _⟩
        · exact Or.inl (h3.trans h4)
        · exact Or.inl (h4 ▸ h3)
      · rcases hin2 with h4 | ⟨h4, hid2⟩
        · exact Or.inl (h3 ▸ h4)
        · exact Or.inr ⟨h3.trans h4, strLe_trans _ _ _ hid hid2⟩

theorem candidateLe_total (a b : MatchCandidate) :
    (candidateLe a b || candidateLe b a) = true := by
  rcases Nat.lt_trichotomy a.dbSize b.dbSize with h | h | h
  · simp [candidateLe_iff, candidateKeyLE, h]
  · rcases Nat.lt_trichotomy a.inflight b.inflight with h2 | h2 | h2
    · simp [candidateLe_iff, candidateKeyLE, h, h2]
    · have h3 := strLe_total a.worker.id b.worker.id
      rcases Bool.or_eq_true_iff.mp h3 with h4 | h4
      · simp [candidateLe_iff, candidateKeyLE, h, h2, h4]
      · simp [candidateLe_iff, candidateKeyLE, h, h2, h4]
    · simp [candidateLe_iff, candidateKeyLE, h, h2]
  · simp [candidateLe_iff, candidateKeyLE, h]

theorem candidateLe_refl (a : MatchCandidate) : candidateLe a a = true := by
  simp [candidateLe_iff, candidateKeyLE, strLe_refl]

theorem matchCandidates_mem_iff (requiredDb : List String) (workers : List WorkerBinding)
    (c : MatchCandidate) :
    c ∈ matchCandidates requiredDb workers ↔
      c.worker ∈ workers ∧ isDbSubset (normalizeDbSet requiredDb) c.worker.dbSet = true ∧
        c.inflight = c.worker.inflight ∧ c.dbSize = c.worker.dbSet.length := by
  unfold matchCandidates
  constructor
  · intro hmem
    obtain ⟨w, hwf, hEq⟩ := List.mem_map.mp hmem
    obtain ⟨hwmem, hwsub⟩ := List.mem_filter.mp hwf
    subst hEq
    exact ⟨hwmem, hwsub, rfl, rfl⟩
  · rintro ⟨hmem, hsub, hin, hdb⟩
    refine List.mem_map.mpr ⟨c.worker, List.mem_filter.mpr ⟨hmem, hsub⟩, ?_⟩
    cases c
    simp_all

theorem matchCandidates_eq_nil_case (requiredDb : List String) (workers : List WorkerBinding)
    (hms : (matchCandidates requiredDb workers).mergeSort candidateLe = []) :
    matchCandidates requiredDb workers = [] := by
  have hperm := List.mergeSort_perm (matchCandidates requiredDb workers) candidateLe
  rw [hms] at hperm
  exact hperm.symm.eq_nil

/-- C1: for every handler db requirement and worker-binding list containing at
least one satisfying binding, `matchWorkerByDbRequirement` returns a binding
that satisfies the requirement and is minimal in the lexicographic order
`(dbSet size, inflight, id)` among all satisfying bindings (ties on size are
broken by smaller inflight, then by lexicographically smaller worker id). -/
theorem matchWorkerByDbRequirement_minimal (requiredDb : List String)
    (workers : List WorkerBinding)
    (h : ∃ w ∈ workers, isDbSubset (normalizeDbSet requiredDb) w.dbSet = true) :
    ∃ m, matchWorkerByDbRequirement requiredDb workers = .ok m ∧
      m ∈ workers ∧ isDbSubset (normalizeDbSet requiredDb) m.dbSet = true ∧
      ∀ w ∈ workers, isDbSubset (normalizeDbSet requiredDb) w.dbSet = true →
        (m.dbSet.length < w.dbSet.length ∨ (m.dbSet.length = w.dbSet.length ∧
          (m.inflight < w.inflight ∨ (m.inflight = w.inflight ∧
            strLe m.id w.id = true)))) := by
  obtain ⟨w0, hw0, hsub0⟩ := h
  have hc0 : MatchCandidate.mk w0 w0.inflight w0.dbSet.length ∈
      matchCandidates requiredDb workers := by
    rw [matchCandidates_mem_iff]
    exact ⟨hw0, hsub0, rfl, rfl⟩
  have hne : (matchCandidates requiredDb workers).isEmpty = false := by
    cases hcand : matchCandidates requiredDb workers with
    | nil => rw [hcand] at hc0; cases hc0
    | cons a l => simp
  have hperm := List.mergeSort_perm (matchCandidates requiredDb workers) candidateLe
  have hsorted := @List.sorted_mergeSort MatchCandidate candidateLe candidateLe_trans
    candidateLe_total (matchCandidates requiredDb workers)
  cases hms : (matchCandidates requiredDb workers).mergeSort candidateLe with
  | nil =>
    exfalso
    rw [matchCandidates_eq_nil_case requiredDb workers hms] at hc0
    cases hc0
  | cons c rest =>
    rw [hms] at hperm hsorted
    have hcmem : c ∈ matchCandidates requiredDb workers :=
      hperm.mem_iff.mp (List.mem_cons_self c rest)
    obtain ⟨hcw, hcsub, hcin, hcdb⟩ := (matchCandidates_mem_iff _ _ _).mp hcmem
    refine ⟨c.worker, ?_, hcw, hcsub, ?_⟩
    · unfold matchWorkerByDbRequirement
      rw [hne, hms]
      rfl
    · intro w hw hwsub
      have hcwmem : MatchCandidate.mk w w.inflight w.dbSet.length ∈ c :: rest := by
        refine hperm.symm.mem_iff.mp ?_
        rw [matchCandidates_mem_iff]
        exact ⟨hw, hwsub, rfl, rfl⟩
      have hle : candidateLe c (MatchCandidate.mk w w.inflight w.dbSet.length) = true := by
        rcases List.mem_cons.mp hcwmem with hEq | hmem
        · rw [hEq]
          exact candidateLe_refl _
        · exact (List.pairwise_cons.mp hsorted).1 _ hmem
      have hkey := (candidateLe_iff _ _).mp hle
      unfold candidateKeyLE at hkey
      rw [hcdb, hcin] at hkey
      exact hkey

/-- Witness for C1: a two-binding pool where only `w1` satisfies `["db1"]`. -/
theorem matchWorkerByDbRequirement_minimal_witness :
    (∃ w ∈ [WorkerBinding.mk "w1" ["db1"] 0, WorkerBinding.mk "w2" [] 0],
        isDbSubset (normalizeDbSet ["db1"]) w.dbSet = true) ∧
    (∃ m, matchWorkerByDbRequirement ["db1"]
          [WorkerBinding.mk "w1" ["db1"] 0, WorkerBinding.mk "w2" [] 0] = .ok m ∧
        m ∈ [WorkerBinding.mk "w1" ["db1"] 0, WorkerBinding.mk "w2" [] 0] ∧
        isDbSubset (normalizeDbSet ["db1"]) m.dbSet = true ∧
        ∀ w ∈ [WorkerBinding.mk "w1" ["db1"] 0, WorkerBinding.mk "w2" [] 0],
          isDbSubset (normalizeDbSet ["db1"]) w.dbSet = true →
            (m.dbSet.length < w.dbSet.length ∨ (m.dbSet.length = w.dbSet.length ∧
              (m.inflight < w.inflight ∨ (m.inflight = w.inflight ∧
                strLe m.id w.id = true))))) :=
  ⟨by decide, matchWorkerByDbRequirement_minimal _ _ (by decide)⟩

/-- One entry of a custom `workerStrategy` list (`{id, db, overrides?}`);
the runtime-option overrides are embedded as a numeric association list. -/
structure WorkerStrategyItem where
  id : String
  db : List String
  overrides : List (String × Nat) := []
deriving Repr, DecidableEq

/-- The `workerStrategy` option: the literal string `'all'` or a custom
list. -/
inductive WorkerStrategy where
  | all
  | custom (items : List WorkerStrategyItem)
deriving Repr, DecidableEq

/-- Resolved worker definition (`ResolvedWorkerDefinition` in
`file-runtime.ts`). -/
structure ResolvedWorkerDefinition where
  id : String
  dbSet : List String
  isFallbackAllDb : Bool
  overrides : List (String × Nat)
deriving Repr, DecidableEq

/-- From `file-runtime.ts` (`extractWorkerOverrides`): object spread
`{...base, ...custom}`, embedded on association lists with custom keys
winning. -/
def extractWorkerOverrides (base custom : List (String × Nat)) : List (String × Nat) :=
  base.filter (fun p => (custom.find? fun q => q.1 == p.1).isNone) ++ custom

/-- The validation loop of `resolveWorkerDefinitions` over custom strategy
items, accumulating definitions and the id set and failing fast on the
first invalid entry. -/
def resolveCustomItems (declaredDbSet : List String) (baseOverrides : List (String × Nat)) :
    List WorkerStrategyItem → Nat → List ResolvedWorkerDefinition → List String →
    Except String (List ResolvedWorkerDefinition × List String)
  | [], _, defs, idSet => .ok (defs, idSet)
  | item :: rest, i, defs, idSet =>
    let id := jsTrim item.id
    if id.length = 0 then
      .error ("Invalid workerStrategy item at index " ++ toString i ++ ": id is empty")
    else if idSet.contains id then
      .error ("Duplicate workerStrategy id: " ++ id)
    else
      let dbSet := normalizeDbSet item.db
      match dbSet.find? (fun name => !declaredDbSet.contains name) with
      | some unknownDb =>
          .error ("Unknown database in workerStrategy (" ++ id ++ "): " ++ unknownDb)
      | none =>
          resolveCustomItems declaredDbSet baseOverrides rest (i + 1)
            (defs ++ [ResolvedWorkerDefinition.mk id dbSet false
              (extractWorkerOverrides baseOverrides item.overrides)])
            (idSet ++ [id])

/-- The `while (idSet.has(fallbackId))` suffix search of
`resolveWorkerDefinitions`; the loop visits pairwise distinct candidate ids,
so `idSet.length + 1` iterations always suffice and the fuel never runs
out. -/
def pickFallbackIdGo (idSet : List String) : Nat → String → Nat → String
  | 0, fallbackId, _ => fallbackId
  | fuel + 1, fallbackId, suffix =>
      if idSet.contains fallbackId then
        pickFallbackIdGo idSet fuel ("fluxion-worker-all-" ++ toString suffix) (suffix + 1)
      else fallbackId

/-- De-conflicted id for the synthesized all-db fallback worker. -/
def pickFallbackId (idSet : List String) : String :=
  pickFallbackIdGo idSet (idSet.length + 1) "fluxion-worker-all" 1

/-- From `file-runtime.ts` (`resolveWorkerDefinitions`): `'all'` or absent
strategy yields the single all-db worker; a custom list is validated and an
all-db fallback definition is appended when no entry covers the declared
set. -/
def resolveWorkerDefinitions (databaseNames : List String)
    (workerStrategy : Option WorkerStrategy) (baseOverrides : List (String × Nat)) :
    Except String (List ResolvedWorkerDefinition) :=
  let allDbSet := normalizeDbSet databaseNames
  match workerStrategy with
  | none =>
      .ok [ResolvedWorkerDefinition.mk "fluxion-worker-all" allDbSet false baseOverrides]
  | some .all =>
      .ok [ResolvedWorkerDefinition.mk "fluxion-worker-all" allDbSet false baseOverrides]
  | some (.custom items) =>
    match resolveCustomItems allDbSet baseOverrides items 0 [] [] with
    | .error e => .error e
    | .ok (definitions, idSet) =>
        if definitions.any fun item => isSameDbSet item.dbSet allDbSet then
          .ok definitions
        else
          .ok (definitions ++
            [ResolvedWorkerDefinition.mk (pickFallbackId idSet) allDbSet true baseOverrides])

theorem isSameDbSet_iff_eq (l r : List String) : isSameDbSet l r = true ↔ l = r := by
  induction l generalizing r with
  | nil => cases r <;> simp [isSameDbSet]
  | cons a as ih =>
    cases r with
    | nil => simp [isSameDbSet]
    | cons b bs =>
      have hx := ih bs
      simp only [isSameDbSet, List.length_cons, List.zip_cons_cons, List.all_cons,
        beq_iff_eq, Bool.and_eq_true, Nat.beq_eq_true_eq, Nat.add_right_cancel_iff,
        List.cons.injEq] at hx ⊢
      constructor
      · rintro ⟨hlen, hab, hall⟩
        exact ⟨hab, hx.mp ⟨hlen, hall⟩⟩
      · rintro ⟨hab, hrest⟩
        obtain ⟨hlen, hall⟩ := hx.mpr hrest
        exact ⟨hlen, hab, hall⟩

/-- Definition produced for one valid custom strategy item. -/
def itemDefinition (base : List (String × Nat)) (item : WorkerStrategyItem) :
    ResolvedWorkerDefinition :=
  ResolvedWorkerDefinition.mk (jsTrim item.id) (normalizeDbSet item.db) false
    (extractWorkerOverrides base item.overrides)

theorem resolveCustomItems_ok_spec (declared : List String) (base : List (String × Nat))
    (items : List WorkerStrategyItem) :
    ∀ (i : Nat) (defs0 : List ResolvedWorkerDefinition) (ids0 : List String)
      (defs : List ResolvedWorkerDefinition) (ids : List String),
      resolveCustomItems declared base items i defs0 ids0 = .ok (defs, ids) →
      defs = defs0 ++ items.map (itemDefinition base) ∧
      ids = ids0 ++ items.map (fun it => jsTrim it.id) ∧
      (∀ it ∈ items, (jsTrim it.id).length ≠ 0) ∧
      (∀ it ∈ items, ∀ name ∈ normalizeDbSet it.db, declared.contains name = true) ∧
      (ids0.Nodup → ids.Nodup) := by
  induction items with
  | nil =>
    intro i defs0 ids0 defs ids h
    simp only [resolveCustomItems, Except.ok.injEq, Prod.mk.injEq] at h
    obtain ⟨h1, h2⟩ := h
    subst h1; subst h2
    simp
  | cons item rest ih =>
    intro i defs0 ids0 defs ids h
    simp only [resolveCustomItems] at h
    split at h
    · cases h
    · split at h
      · cases h
      · split at h
        · cases h
        · rename_i hLen hContains hOpt hFind
          obtain ⟨hdefs, hids, hItems, hDb, hNodup⟩ := ih (i + 1) _ _ _ _ h
          refine ⟨?_, ?_, ?_, ?_, ?_⟩
          · rw [hdefs]
            simp [itemDefinition]
          · rw [hids]
            simp
          · intro it hit
            rcases List.mem_cons.mp hit with hEq | hmem
            · subst hEq
              simpa using hLen
            · exact hItems it hmem
          · intro it hit name hname
            rcases List.mem_cons.mp hit with hEq | hmem
            · subst hEq
              have := List.find?_eq_none.mp hFind name hname
              simpa using this
            · exact hDb it hmem name hname
          · intro hn0
            apply hNodup
            rw [List.nodup_append]
            refine ⟨hn0, List.nodup_singleton _, ?_⟩
            intro a ha hax
            rw [List.mem_singleton] at hax
            subst hax
            exact hContains (by simpa using ha)

theorem pickFallbackIdGo_shape (idSet : List String) (fuel : Nat) :
    ∀ (cand : String) (suffix : Nat),
      (cand = "fluxion-worker-all" ∨ ∃ n : Nat, cand = "fluxion-worker-all-" ++ toString n) →
      (pickFallbackIdGo idSet fuel cand suffix = "fluxion-worker-all" ∨
        ∃ n : Nat, pickFallbackIdGo idSet fuel cand suffix = "fluxion-worker-all-" ++ toString n) := by
  induction fuel with
  | zero => intro cand suffix h; exact h
  | succ k ih =>
    intro cand suffix h
    simp only [pickFallbackIdGo]
    split
    · exact ih _ (suffix + 1) (Or.inr ⟨suffix, rfl⟩)
    · exact h

theorem pickFallbackId_of_free (idSet : List String)
    (h : idSet.contains "fluxion-worker-all" = false) :
    pickFallbackId idSet = "fluxion-worker-all" := by
  unfold pickFallbackId
  simp only [pickFallbackIdGo, h]
  simp

/-- C8: with a custom `workerStrategy` list, startup fails for an entry with
an empty (trimmed) id, a duplicate id, or a db name outside the declared
set; on success, some definition covers the whole declared set, and when no
entry does, an all-db fallback definition is appended, marked
`isFallbackAllDb`, with id `fluxion-worker-all` (suffixed when that id is
already taken by an entry). -/
theorem resolveWorkerDefinitions_custom_spec (databaseNames : List String)
    (items : List WorkerStrategyItem) (base : List (String × Nat)) :
    ((∃ it ∈ items, (jsTrim it.id).length = 0) →
        ∃ e, resolveWorkerDefinitions databaseNames (some (.custom items)) base = .error e) ∧
    ((¬ (items.map fun it => jsTrim it.id).Nodup) →
        ∃ e, resolveWorkerDefinitions databaseNames (some (.custom items)) base = .error e) ∧
    ((∃ it ∈ items, ∃ name ∈ normalizeDbSet it.db,
          (normalizeDbSet databaseNames).contains name = false) →
        ∃ e, resolveWorkerDefinitions databaseNames (some (.custom items)) base = .error e) ∧
    (∀ defs, resolveWorkerDefinitions databaseNames (some (.custom items)) base = .ok defs →
        (∃ d ∈ defs, d.dbSet = normalizeDbSet databaseNames) ∧
        ((∀ it ∈ items, normalizeDbSet it.db ≠ normalizeDbSet databaseNames) →
          ∃ fb, defs = items.map (itemDefinition base) ++ [fb] ∧
            fb.isFallbackAllDb = true ∧ fb.dbSet = normalizeDbSet databaseNames ∧
            (fb.id = "fluxion-worker-all" ∨
              ∃ n : Nat, fb.id = "fluxion-worker-all-" ++ toString n) ∧
            ((items.map fun it => jsTrim it.id).contains "fluxion-worker-all" = false →
              fb.id = "fluxion-worker-all"))) := by
  cases hres : resolveCustomItems (normalizeDbSet databaseNames) base items 0 [] [] with
  | error e =>
    have hrw : resolveWorkerDefinitions databaseNames (some (.custom items)) base = .error e := by
      simp only [resolveWorkerDefinitions, hres]
    refine ⟨fun _ => ⟨e, hrw⟩, fun _ => ⟨e, hrw⟩, fun _ => ⟨e, hrw⟩, ?_⟩
    intro defs hok
    rw [hrw] at hok
    cases hok
  | ok pair =>
    obtain ⟨definitions, idSet⟩ := pair
    obtain ⟨hdefs, hids, hNoEmpty, hDbOk, hNodup⟩ :=
      resolveCustomItems_ok_spec (normalizeDbSet databaseNames) base items 0 [] [] _ _ hres
    simp only [List.nil_append] at hdefs hids
    refine ⟨?_, ?_, ?_, ?_⟩
    · rintro ⟨it, hit, hlen⟩
      exact absurd hlen (hNoEmpty it hit)
    · intro hdup
      exfalso
      apply hdup
      rw [← hids]
      exact hNodup (List.nodup_nil)
    · rintro ⟨it, hit, name, hname, hfalse⟩
      rw [hDbOk it hit name hname] at hfalse
      cases hfalse
    · intro defs hok
      have hrw : resolveWorkerDefinitions databaseNames (some (.custom items)) base =
          (if definitions.any (fun item => isSameDbSet item.dbSet (normalizeDbSet databaseNames))
            then .ok definitions
            else .ok (definitions ++ [ResolvedWorkerDefinition.mk (pickFallbackId idSet)
              (normalizeDbSet databaseNames) true base])) := by
        simp only [resolveWorkerDefinitions, hres]
      by_cases hany : definitions.any
          (fun item => isSameDbSet item.dbSet (normalizeDbSet databaseNames)) = true
      · rw [hrw, if_pos hany] at hok
        replace hok := Except.ok.inj hok
        subst hok
        obtain ⟨d, hdmem, hdsame⟩ := List.any_eq_true.mp hany
        have hdEq : d.dbSet = normalizeDbSet databaseNames := (isSameDbSet_iff_eq _ _).mp hdsame
        constructor
        · exact ⟨d, hdmem, hdEq⟩
        · intro hnone
          exfalso
          rw [hdefs] at hdmem
          obtain ⟨it, hit, hitEq⟩ := List.mem_map.mp hdmem
          apply hnone it hit
          rw [← hitEq] at hdEq
          simpa [itemDefinition] using hdEq
      · rw [hrw, if_neg hany] at hok
        replace hok := Except.ok.inj hok
        subst hok
        refine ⟨?_, ?_⟩
        · exact ⟨ResolvedWorkerDefinition.mk (pickFallbackId idSet)
            (normalizeDbSet databaseNames) true base,
            List.mem_append_right _ (List.mem_singleton_self _), rfl⟩
        · intro _
          refine ⟨ResolvedWorkerDefinition.mk (pickFallbackId idSet)
            (normalizeDbSet databaseNames) true base, ?_, rfl, rfl, ?_, ?_⟩
          · rw [hdefs]
          · exact pickFallbackIdGo_shape idSet (idSet.length + 1) "fluxion-worker-all" 1
              (Or.inl rfl)
          · intro hfree
            apply pickFallbackId_of_free
            rw [hids]
            exact hfree

/-- Witness for C8: declared `["db1","db2"]` with a single custom entry
`{id:"w1", db:["db1"]}` resolves successfully and some definition (the
appended `fluxion-worker-all` fallback) covers the declared set. -/
theorem resolveWorkerDefinitions_custom_spec_witness :
    (resolveWorkerDefinitions ["db1", "db2"]
        (some (.custom [WorkerStrategyItem.mk "w1" ["db1"] []])) [] =
      .ok [ResolvedWorkerDefinition.mk "w1" ["db1"] false [],
        ResolvedWorkerDefinition.mk "fluxion-worker-all" ["db1", "db2"] true []]) ∧
    (∃ d ∈ [ResolvedWorkerDefinition.mk "w1" ["db1"] false [],
        ResolvedWorkerDefinition.mk "fluxion-worker-all" ["db1", "db2"] true []],
      d.dbSet = normalizeDbSet ["db1", "db2"]) :=
  ⟨by decide,
    ((resolveWorkerDefinitions_custom_spec ["db1", "db2"]
        [WorkerStrategyItem.mk "w1" ["db1"] []] []).2.2.2 _ (by decide)).1⟩

/-- Absolute POSIX filesystem paths, embedded as their segment lists. -/
abbrev FsPath := List String

/-- Structural character-list test: is the first list an initial run of the
second. -/
def charListInit : List Char → List Char → Bool
  | [], _ => true
  | _ :: _, [] => false
  | p :: ps, s :: ss => p == s && charListInit ps ss

/-- JavaScript `String.prototype.startsWith`. -/
def jsStartsWith (s pat : String) : Bool :=
  charListInit pat.data s.data

/-- JavaScript `String.prototype.endsWith`. -/
def jsEndsWith (s pat : String) : Bool :=
  charListInit pat.data.reverse s.data.reverse

/-- JavaScript `String.prototype.split` on a single separator character. -/
def splitOnCharAux (sep : Char) : List Char → List Char → List String
  | [], acc => [⟨acc.reverse⟩]
  | c :: rest, acc =>
      if c = sep then ⟨acc.reverse⟩ :: splitOnCharAux sep rest []
      else splitOnCharAux sep rest (c :: acc)

/-- JavaScript `s.split(sep)` for a one-character separator. -/
def jsSplitChar (s : String) (sep : Char) : List String :=
  splitOnCharAux sep s.data []

/-- From `file-runtime.ts` (`isIgnoredSegment`): private `_`-prefixed
segments are not routable. -/
def isIgnoredSegment (segment : String) : Bool :=
  jsStartsWith segment "_"

/-- Parsed and validated request path (`ParsedPath` in `file-runtime.ts`). -/
structure ParsedPath where
  pathname : String
  segments : List String
deriving Repr, DecidableEq

/-- The per-segment loop of `parseRequestPath`: percent-decode (the JS
builtin `decodeURIComponent` is the `decode` oracle; `none` models a thrown
`URIError`) and reject unsafe segments, failing the whole parse on any
rejection. -/
def parseSegments (decode : String → Option String) :
    List String → Option (List String)
  | [] => some []
  | rawSegment :: rest =>
    match decode rawSegment with
    | none => none
    | some segment =>
        if segment.length = 0 ∨ segment = "." ∨ segment = ".." ∨
            segment.data.contains '/' ∨ segment.data.contains '\\' ∨
            isIgnoredSegment segment then
          none
        else
          (parseSegments decode rest).map fun segments => segment :: segments

/-- From `file-runtime.ts` (`parseRequestPath`): split the pathname on `/`,
drop empties, decode and validate every segment. -/
def parseRequestPath (decode : String → Option String) (pathname : String) :
    Option ParsedPath :=
  match parseSegments decode ((jsSplitChar pathname '/').filter fun s => s ≠ "") with
  | none => none
  | some segments => some (ParsedPath.mk pathname segments)

/-- Longest common prefix split used to embed Node `path.relative` on
segment lists. -/
def dropCommonLead : FsPath → FsPath → FsPath × FsPath
  | f :: fs, t :: ts => if f = t then dropCommonLead fs ts else (f :: fs, t :: ts)
  | f, t => (f, t)

/-- Node `path.relative` on absolute segment-list paths: one `..` per
remaining `from` segment, then the remaining `to` segments. -/
def pathRelative (fromPath toPath : FsPath) : FsPath :=
  ((dropCommonLead fromPath toPath).1.map fun _ => "..") ++
    (dropCommonLead fromPath toPath).2

/-- From `file-runtime.ts` (`isUnderDirectory`): the relative path must not
start with `..` (the joined string starts with `..` exactly when its first
segment does) and must not be absolute (`path.relative` of two absolute
paths never is). -/
def isUnderDirectory (targetPath rootDirectory : FsPath) : Bool :=
  match (pathRelative rootDirectory targetPath).head? with
  | none => true
  | some s => !(jsStartsWith s "..")

/-- Spec-side notion of lying under the root: the root is a plain prefix of
the target path. Used to compare the code's textual skip test with the
spec's "resolves outside the root". -/
def isPathPrefixOf (root target : FsPath) : Bool :=
  match root, target with
  | [], _ => true
  | _ :: _, [] => false
  | r :: rs, t :: ts => r == t && isPathPrefixOf rs ts

/-- Appending `".mjs"` to the final path segment embeds the template string
`` `${routePath}.mjs` `` of `buildHandlerCandidates`. -/
def appendToLastSegment (p : FsPath) (suffix : String) : FsPath :=
  match p with
  | [] => [suffix]
  | [last] => [last ++ suffix]
  | x :: rest => x :: appendToLastSegment rest suffix

/-- From `file-runtime.ts` (`buildHandlerCandidates`): `index.mjs` in the
route directory first, then the sibling `.mjs` file; only `[root]/index.mjs`
for the empty route. -/
def buildHandlerCandidates (dynamicDirectory : FsPath) (segments : List String) :
    List FsPath :=
  if segments.length = 0 then [dynamicDirectory ++ ["index.mjs"]]
  else
    [dynamicDirectory ++ segments ++ ["index.mjs"],
      appendToLastSegment (dynamicDirectory ++ segments) ".mjs"]

/-- The candidate loop of `resolveHandlerFile`: skip candidates failing
`isUnderDirectory`, return the first with a version from the oracle `ver`
(the embedding of `getFileVersion`, `none` for missing files). -/
def resolveHandlerCandidates (ver : FsPath → Option String) (dir : FsPath) :
    List FsPath → Option (FsPath × String)
  | [] => none
  | filePath :: rest =>
      if !(isUnderDirectory filePath dir) then resolveHandlerCandidates ver dir rest
      else
        match ver filePath with
        | some version => some (filePath, version)
        | none => resolveHandlerCandidates ver dir rest

/-- From `file-runtime.ts` (`resolveHandlerFile`). -/
def resolveHandlerFile (ver : FsPath → Option String) (dir : FsPath)
    (segments : List String) : Option (FsPath × String) :=
  resolveHandlerCandidates ver dir (buildHandlerCandidates dir segments)

/-- Index of the last `.` in a character list. -/
def findLastDot (cs : List Char) : Option Nat :=
  match cs.reverse.findIdx? (fun c => c = '.') with
  | none => none
  | some k => some (cs.length - 1 - k)

/-- Node `path.extname` restricted to a basename: empty when there is no
dot, when the only dot is the leading character (dotfiles), or for the
special name `..`; otherwise the substring from the last dot. -/
def jsExtname (basename : String) : String :=
  match findLastDot basename.data with
  | none => ""
  | some 0 => ""
  | some i => if basename.data = ['.', '.'] then "" else ⟨basename.data.drop i⟩

/-- Handler dispatch result (`HandlerResult` in `common/consts`). -/
inductive HandlerResult where
  | NotFound
  | Handled
deriving Repr, DecidableEq

/-- From `file-runtime.ts` (`tryHandleStatic`): GET/HEAD only, at least one
segment, resolved path under the root, extension not `.mjs`, and the stat
oracle `isFile` must report a regular file (false models ENOENT/ENOTDIR or
a non-file). -/
def tryHandleStaticDecision (isFile : FsPath → Bool) (dir : FsPath)
    (method : String) (parsedPath : ParsedPath) : HandlerResult :=
  if method ≠ "GET" ∧ method ≠ "HEAD" then .NotFound
  else if parsedPath.segments.length = 0 then .NotFound
  else if !(isUnderDirectory (dir ++ parsedPath.segments) dir) then .NotFound
  else if jsToLowerCase (jsExtname ((dir ++ parsedPath.segments).getLastD "")) = ".mjs" then
    .NotFound
  else if isFile (dir ++ parsedPath.segments) then .Handled
  else .NotFound

/-- The resolution part of `tryHandleHandler` in `file-runtime.ts`: literal
`*.mjs` pathnames never match; otherwise resolve the handler file. -/
def tryHandleHandlerResolution (ver : FsPath → Option String) (dir : FsPath)
    (parsedPath : ParsedPath) : Option (FsPath × String) :=
  if jsEndsWith parsedPath.pathname ".mjs" then none
  else resolveHandlerFile ver dir parsedPath.segments

/-- The request pipeline of `handleRequest`/`tryHandleHandler` in
`file-runtime.ts`, abstracted at worker dispatch: a resolved handler is
executed and counts as handled (worker failures surface as exceptions,
never as not-found); otherwise static dispatch decides. -/
def handleRequestOutcome (ver : FsPath → Option String) (isFile : FsPath → Bool)
    (dir : FsPath) (decode : String → Option String) (method : String)
    (pathname : String) : HandlerResult :=
  match parseRequestPath decode pathname with
  | none => .NotFound
  | some parsedPath =>
    match tryHandleHandlerResolution ver dir parsedPath with
    | some _ => .Handled
    | none => tryHandleStaticDecision isFile dir method parsedPath

/-- C4: evaluation at the failing input `GET /.mjs` with a regular file
named `.mjs` at the dynamic-directory root: the pathname literally ends in
`.mjs` and handler dispatch refuses it, but Node `path.extname(".mjs")` is
empty so the static `.mjs` rejection does not fire and the file is served —
the outcome is `Handled`, not not-found. The last conjunct shows the static
rejection does fire for an ordinary `x.mjs` name. -/
theorem mjsLiteral_pathname_served_bug :
    jsEndsWith "/.mjs" ".mjs" = true ∧
    handleRequestOutcome (fun _ => none) (fun p => p == ["root", ".mjs"]) ["root"]
      (fun s => some s) "GET" "/.mjs" = .Handled ∧
    tryHandleStaticDecision (fun p => p == ["root", "x.mjs"]) ["root"] "GET"
      (ParsedPath.mk "/x.mjs" ["x.mjs"]) = .NotFound := by decide

/-- Version oracle for the C5 counterexample: only `root/..a/index.mjs`
exists. -/
def underRootSkippedVer (p : FsPath) : Option String :=
  if p = ["root", "..a", "index.mjs"] then some "1:1" else none

/-- Counterexample for C5: for parsed segments `["..a"]` (accepted by the
path parser) the first candidate lies under the root and carries a version,
yet resolution returns nothing — the `relative.startsWith("..")` guard also
skips under-root candidates whose first segment begins with `..`. -/
theorem resolveHandlerFile_skips_underRoot_counterexample :
    buildHandlerCandidates ["root"] ["..a"] =
      [["root", "..a", "index.mjs"], ["root", "..a.mjs"]] ∧
    isPathPrefixOf ["root"] ["root", "..a", "index.mjs"] = true ∧
    underRootSkippedVer ["root", "..a", "index.mjs"] = some "1:1" ∧
    parseRequestPath (fun s => some s) "/..a" =
      some (ParsedPath.mk "/..a" ["..a"]) ∧
    resolveHandlerFile underRootSkippedVer ["root"] ["..a"] = none := by decide

theorem resolveHandlerCandidates_eq_findSome (ver : FsPath → Option String)
    (dir : FsPath) (cs : List FsPath) :
    resolveHandlerCandidates ver dir cs =
      (cs.filter fun c => isUnderDirectory c dir).findSome?
        (fun c => (ver c).map fun v => (c, v)) := by
  induction cs with
  | nil => rfl
  | cons c rest ih =>
    simp only [resolveHandlerCandidates, List.filter_cons]
    by_cases h : isUnderDirectory c dir
    · simp only [h, Bool.not_true, Bool.false_eq_true, if_false, if_true]
      cases hv : ver c with
      | some v => simp [List.findSome?, hv]
      | none => simp [List.findSome?, hv, ih]
    · simp only [Bool.not_eq_true] at h
      simp [h, ih]

/-- C5 (amended): handler resolution tries exactly the `index.mjs` candidate
and then the sibling `.mjs` candidate (only `[root]/index.mjs` for an empty
route), skips every candidate failing the code's under-root test (all
out-of-root candidates, but also under-root candidates whose first segment
begins with `..`), returns the first unskipped candidate with a version,
and `index.mjs` wins whenever it is unskipped and versioned, whatever the
sibling holds. -/
theorem resolveHandlerFile_spec (ver : FsPath → Option String) (dir : FsPath)
    (segments : List String) :
    resolveHandlerFile ver dir segments =
      ((buildHandlerCandidates dir segments).filter fun c =>
          isUnderDirectory c dir).findSome? (fun c => (ver c).map fun v => (c, v)) ∧
    (segments.length = 0 → buildHandlerCandidates dir segments = [dir ++ ["index.mjs"]]) ∧
    (segments.length ≠ 0 → buildHandlerCandidates dir segments =
      [dir ++ segments ++ ["index.mjs"], appendToLastSegment (dir ++ segments) ".mjs"]) ∧
    (∀ v1, segments.length ≠ 0 →
      isUnderDirectory (dir ++ segments ++ ["index.mjs"]) dir = true →
      ver (dir ++ segments ++ ["index.mjs"]) = some v1 →
      resolveHandlerFile ver dir segments = some (dir ++ segments ++ ["index.mjs"], v1)) := by
  refine ⟨resolveHandlerCandidates_eq_findSome ver dir _, ?_, ?_, ?_⟩
  · intro h
    simp [buildHandlerCandidates, h]
  · intro h
    simp [buildHandlerCandidates, h]
  · intro v1 hlen hunder hver
    unfold resolveHandlerFile
    rw [show buildHandlerCandidates dir segments =
      [dir ++ segments ++ ["index.mjs"], appendToLastSegment (dir ++ segments) ".mjs"] by
        simp [buildHandlerCandidates, hlen]]
    rw [List.append_assoc] at hunder hver
    simp [resolveHandlerCandidates, hunder, hver]

/-- Version oracle for the C5 witness: both `root/a/index.mjs` and
`root/a.mjs` exist. -/
def indexWinsVer (p : FsPath) : Option String :=
  if p = ["root", "a", "index.mjs"] then some "1:1"
  else if p = ["root", "a.mjs"] then some "2:2" else none

/-- Witness for C5: with both `root/a/index.mjs` and `root/a.mjs` present,
resolution returns the `index.mjs` candidate. -/
theorem resolveHandlerFile_spec_witness :
    resolveHandlerFile indexWinsVer ["root"] ["a"] =
      some (["root", "a", "index.mjs"], "1:1") :=
  (resolveHandlerFile_spec indexWinsVer ["root"] ["a"]).2.2.2 "1:1"
    (by decide) (by decide) (by decide)

/-- Serialized worker error (`protocol.SerializedError`, stack omitted). -/
structure WorkerError where
  name : String
  message : String
  code : Option String
deriving Repr, DecidableEq

/-- Association-list embedding of a JS `Map` lookup (`map.get`). -/
def assocGet {α : Type} (m : List (String × α)) (k : String) : Option α :=
  (m.find? fun p => p.1 == k).map fun p => p.2

/-- Association-list embedding of a JS `Map` update (`map.set`): updates an
existing key in place, otherwise appends, preserving insertion order. -/
def assocSet {α : Type} (m : List (String × α)) (k : String) (v : α) :
    List (String × α) :=
  if (m.find? fun p => p.1 == k).isSome then
    m.map fun p => if p.1 == k then (k, v) else p
  else m ++ [(k, v)]

/-- The `db` field of a handler module default export
(`db?: string | string[]`, or anything else). -/
inductive DbInput where
  | str (s : String)
  | arr (xs : List String)
  | absent
deriving Repr, DecidableEq

/-- From the worker (`normalizeDbList`): a string becomes a singleton after
trimming (empty trims to nothing), arrays get the same trim/dedupe/sort loop
as `normalizeDbSet` (non-string entries are typed away here), anything else
is empty. -/
def normalizeDbList : DbInput → List String
  | .str s =>
      let normalized := jsTrim s
      if normalized.length = 0 then [] else [normalized]
  | .arr xs => normalizeDbSet xs
  | .absent => []

/-- A handler module's default export, with loaded function objects
abstracted to tags: a function, a record whose `handler` field may or may
not be a function, or any other value. -/
inductive ModuleDefaultExport where
  | fn (tag : Nat)
  | obj (handlerTag : Option Nat) (db : DbInput)
  | other
deriving Repr, DecidableEq

/-- Parsed handler module (`ParsedModuleDefault` in the worker). -/
structure ParsedModuleDefault where
  handlerTag : Nat
  db : List String
deriving Repr, DecidableEq

/-- From the worker (`parseModuleDefault`): accept a function or
`{ handler, db? }`, otherwise fail with a `TypeError`. -/
def parseModuleDefault (defaultExport : ModuleDefaultExport) (filePath : String) :
    Except WorkerError ParsedModuleDefault :=
  match defaultExport with
  | .fn tag => .ok (ParsedModuleDefault.mk tag [])
  | .obj (some tag) db => .ok (ParsedModuleDefault.mk tag (normalizeDbList db))
  | .obj none _ =>
      .error (WorkerError.mk "TypeError"
        ("Default export must be a function or handler object: " ++ filePath) none)
  | .other =>
      .error (WorkerError.mk "TypeError"
        ("Default export must be a function or handler object: " ++ filePath) none)

/-- From the worker (`assertWorkerDbCapability`): every declared db must be
in the worker's capability set, else `WORKER_DB_NOT_AVAILABLE`. -/
def assertWorkerDbCapability (workerId : String) (workerDbSet : List String)
    (filePath : String) (metaDb : List String) : Except WorkerError Unit :=
  let missing := metaDb.filter fun name => !workerDbSet.contains name
  if missing.length = 0 then .ok ()
  else
    .error (WorkerError.mk "Error"
      ("Handler requires unavailable db in worker " ++ workerId ++ ": " ++ filePath ++
        " -> " ++ String.intercalate ", " missing)
      (some "WORKER_DB_NOT_AVAILABLE"))

/-- Worker-local cache entry (`HandlerCacheEntry`): loaded handler tag,
version token and metadata. -/
structure HandlerCacheEntry where
  handlerTag : Nat
  version : String
  db : List String
deriving Repr, DecidableEq

/-- Result of one `loadHandler` call: the entry, the updated cache, and
whether a dynamic import was performed. -/
structure LoadOutcome where
  entry : HandlerCacheEntry
  cache : List (String × HandlerCacheEntry)
  imported : Bool
deriving Repr, DecidableEq

/-- From the worker (`loadHandler`), used by both Execute and Inspect: a
cache hit with the same version is reused; a hit with a different version
fails with `WORKER_VERSION_MISMATCH` (the supervisor must rotate the worker
before a new version becomes servable); a miss dynamically imports (the
`importOracle` embeds `import()`), parses and capability-checks the module,
then caches it. -/
def loadHandler (importOracle : String → Except WorkerError ModuleDefaultExport)
    (workerId : String) (workerDbSet : List String)
    (cache : List (String × HandlerCacheEntry)) (filePath version : String) :
    Except WorkerError LoadOutcome :=
  match assocGet cache filePath with
  | some cached =>
      if cached.version = version then .ok (LoadOutcome.mk cached cache false)
      else
        .error (WorkerError.mk "Error"
          ("Handler version changed in worker: " ++ filePath)
          (some "WORKER_VERSION_MISMATCH"))
  | none =>
    match importOracle filePath with
    | .error e => .error e
    | .ok defaultExport =>
      match parseModuleDefault defaultExport filePath with
      | .error e => .error e
      | .ok parsed =>
        match assertWorkerDbCapability workerId workerDbSet filePath parsed.db with
        | .error e => .error e
        | .ok _ =>
            let entry := HandlerCacheEntry.mk parsed.handlerTag version parsed.db
            .ok (LoadOutcome.mk entry (assocSet cache filePath entry) true)

/-- C2: the worker-side load protocol for `(filePath, version)` on both
Execute and Inspect: when the cache holds the path with the same version,
the cached module is reused — the result is independent of the import
oracle (the file is not re-imported) and the cache is unchanged; when the
cache holds a different version, the call fails with code
`WORKER_VERSION_MISMATCH`, again for every import oracle, so the module is
never reloaded in place. -/
theorem loadHandler_version_protocol (workerId : String) (workerDbSet : List String)
    (cache : List (String × HandlerCacheEntry)) (filePath version : String)
    (cached : HandlerCacheEntry)
    (hhit : assocGet cache filePath = some cached) :
    (cached.version = version →
      ∀ importOracle, loadHandler importOracle workerId workerDbSet cache filePath version =
        .ok (LoadOutcome.mk cached cache false)) ∧
    (cached.version ≠ version →
      ∀ importOracle, loadHandler importOracle workerId workerDbSet cache filePath version =
        .error (WorkerError.mk "Error"
          ("Handler version changed in worker: " ++ filePath)
          (some "WORKER_VERSION_MISMATCH"))) := by
  constructor
  · intro hv importOracle
    unfold loadHandler
    rw [hhit]
    simp [hv]
  · intro hv importOracle
    unfold loadHandler
    rw [hhit]
    simp [hv]

/-- Witness for C2: a one-entry cache at version `1:1`; the import oracle
always fails, so both conjuncts show the oracle is never consulted. -/
theorem loadHandler_version_protocol_witness :
    (assocGet [("f.mjs", HandlerCacheEntry.mk 0 "1:1" [])] "f.mjs" =
      some (HandlerCacheEntry.mk 0 "1:1" [])) ∧
    (loadHandler (fun _ => .error (WorkerError.mk "Error" "no import" none)) "w1" []
        [("f.mjs", HandlerCacheEntry.mk 0 "1:1" [])] "f.mjs" "1:1" =
      .ok (LoadOutcome.mk (HandlerCacheEntry.mk 0 "1:1" [])
        [("f.mjs", HandlerCacheEntry.mk 0 "1:1" [])] false)) ∧
    (loadHandler (fun _ => .error (WorkerError.mk "Error" "no import" none)) "w1" []
        [("f.mjs", HandlerCacheEntry.mk 0 "1:1" [])] "f.mjs" "2:2" =
      .error (WorkerError.mk "Error" "Handler version changed in worker: f.mjs"
        (some "WORKER_VERSION_MISMATCH"))) :=
  ⟨by decide,
    (loadHandler_version_protocol "w1" [] [("f.mjs", HandlerCacheEntry.mk 0 "1:1" [])]
      "f.mjs" "1:1" (HandlerCacheEntry.mk 0 "1:1" []) (by decide)).1 rfl _,
    (loadHandler_version_protocol "w1" [] [("f.mjs", HandlerCacheEntry.mk 0 "1:1" [])]
      "f.mjs" "2:2" (HandlerCacheEntry.mk 0 "1:1" []) (by decide)).2 (by decide) _⟩

/-- A value passed to `setHeader`/`writeHead`
(`string | number | readonly string[]`). -/
inductive HeaderValue where
  | str (s : String)
  | num (n : Int)
  | arr (xs : List String)
deriving Repr, DecidableEq

/-- JS `String(value)` for the non-array header values (arrays are joined
with `", "` by `setHeader` before this would apply). -/
def headerValueToString : HeaderValue → String
  | .str s => s
  | .num n => toString n
  | .arr xs => String.intercalate "," xs

/-- The in-memory response sink run inside the worker
(`MemoryServerResponse`); body chunks are byte lists. -/
structure MemoryServerResponse where
  statusCode : Nat
  statusMessage : String
  maxBodyBytes : Nat
  headerMap : List (String × String)
  bodyChunks : List (List Nat)
  totalBodyBytes : Nat
deriving Repr, DecidableEq

/-- Fresh response sink for one execution
(`new MemoryServerResponse(maxResponseBytes)`). -/
def initialResponse (maxBodyBytes : Nat) : MemoryServerResponse :=
  MemoryServerResponse.mk 200 "" maxBodyBytes [] [] 0

/-- From `MemoryServerResponse.setHeader`: keys are lowercased; array values
are joined with `", "`, other values are stringified. -/
def setHeader (res : MemoryServerResponse) (name : String) (value : HeaderValue) :
    MemoryServerResponse :=
  match value with
  | .arr xs =>
      { res with headerMap :=
          assocSet res.headerMap (jsToLowerCase name) (String.intercalate ", " xs) }
  | v =>
      { res with headerMap :=
          assocSet res.headerMap (jsToLowerCase name) (headerValueToString v) }

/-- From `MemoryServerResponse.getHeader`: case-insensitive lookup. -/
def getHeader (res : MemoryServerResponse) (name : String) : Option String :=
  assocGet res.headerMap (jsToLowerCase name)

/-- From `MemoryServerResponse.applyHeaders` (the `for` loop over keys):
arrays re-enter `setHeader` as arrays (entries stringified, here already
strings), other values are stringified. -/
def applyHeaders : MemoryServerResponse → List (String × HeaderValue) →
    MemoryServerResponse
  | res, [] => res
  | res, p :: rest =>
    match p.2 with
    | .arr xs => applyHeaders (setHeader res p.1 (.arr xs)) rest
    | v => applyHeaders (setHeader res p.1 (.str (headerValueToString v))) rest

/-- From `MemoryServerResponse.writeHead`: sets the status, the optional
status message, and any headers. -/
def writeHead (res : MemoryServerResponse) (statusCode : Nat)
    (statusMessage : Option String) (headers : List (String × HeaderValue)) :
    MemoryServerResponse :=
  match statusMessage with
  | some msg => applyHeaders { res with statusCode := statusCode, statusMessage := msg } headers
  | none => applyHeaders { res with statusCode := statusCode } headers

/-- From `MemoryServerResponse.appendChunk`: empty chunks are ignored; a
chunk pushing the cumulative size over `maxBodyBytes` throws
`WORKER_RESPONSE_TOO_LARGE` before any mutation; otherwise the chunk is
buffered and counted. -/
def appendChunk (res : MemoryServerResponse) (chunk : List Nat) :
    Except WorkerError MemoryServerResponse :=
  if chunk.length = 0 then .ok res
  else if res.totalBodyBytes + chunk.length > res.maxBodyBytes then
    .error (WorkerError.mk "Error"
      ("worker response too large: " ++ toString (res.totalBodyBytes + chunk.length) ++
        " bytes exceeds " ++ toString res.maxBodyBytes ++ " bytes")
      (some "WORKER_RESPONSE_TOO_LARGE"))
  else
    .ok { res with
      totalBodyBytes := res.totalBodyBytes + chunk.length,
      bodyChunks := res.bodyChunks ++ [chunk] }

/-- Serialized worker response (`protocol.SerializedResponse`). -/
structure SerializedResponse where
  statusCode : Nat
  headers : List (String × String)
  body : Option (List Nat)
deriving Repr, DecidableEq

/-- From `MemoryServerResponse.toSerializedResponse`: headers as captured,
chunks concatenated into one body, omitted when no chunk was written. -/
def toSerializedResponse (res : MemoryServerResponse) : SerializedResponse :=
  if res.bodyChunks.length = 0 then
    SerializedResponse.mk res.statusCode res.headerMap none
  else
    SerializedResponse.mk res.statusCode res.headerMap (some res.bodyChunks.flatten)

/-- One observable action a handler performs on the response object. -/
inductive HandlerOp where
  | setHeaderOp (name : String) (value : HeaderValue)
  | writeHeadOp (statusCode : Nat) (statusMessage : Option String)
      (headers : List (String × HeaderValue))
  | writeOp (chunk : List Nat)
  | endOp (chunk : Option (List Nat))
deriving Repr, DecidableEq

/-- Runs a handler (as its sequence of response operations) against the
sink; `res.write` and `res.end(chunk)` both go through `appendChunk` and a
thrown size error aborts the handler. -/
def runHandlerOps : MemoryServerResponse → List HandlerOp →
    Except WorkerError MemoryServerResponse
  | res, [] => .ok res
  | res, op :: rest =>
    match op with
    | .setHeaderOp name value => runHandlerOps (setHeader res name value) rest
    | .writeHeadOp sc sm hs => runHandlerOps (writeHead res sc sm hs) rest
    | .writeOp chunk =>
        match appendChunk res chunk with
        | .error e => .error e
        | .ok res2 => runHandlerOps res2 rest
    | .endOp none => runHandlerOps res rest
    | .endOp (some chunk) =>
        match appendChunk res chunk with
        | .error e => .error e
        | .ok res2 => runHandlerOps res2 rest

/-- Result of one worker execution (`protocol.ResultMessage`, restricted to
the fields the claims are about): on error, no response is attached. -/
structure WorkerExecResult where
  ok : Bool
  response : Option SerializedResponse
  error : Option WorkerError
deriving Repr, DecidableEq

/-- From the worker's `execute`: run the handler on a fresh sink; serialize
on success, return an error result without any response on a thrown
error. -/
def executeHandler (maxResponseBytes : Nat) (ops : List HandlerOp) : WorkerExecResult :=
  match runHandlerOps (initialResponse maxResponseBytes) ops with
  | .ok res => WorkerExecResult.mk true (some (toSerializedResponse res)) none
  | .error e => WorkerExecResult.mk false none (some e)

/-- Total body bytes a handler attempts to write. -/
def totalBytesWritten : List HandlerOp → Nat
  | [] => 0
  | .writeOp chunk :: rest => chunk.length + totalBytesWritten rest
  | .endOp (some chunk) :: rest => chunk.length + totalBytesWritten rest
  | _ :: rest => totalBytesWritten rest

theorem setHeader_body_fields (res : MemoryServerResponse) (name : String)
    (value : HeaderValue) :
    (setHeader res name value).totalBodyBytes = res.totalBodyBytes ∧
    (setHeader res name value).maxBodyBytes = res.maxBodyBytes := by
  cases value <;> simp [setHeader]

theorem applyHeaders_body_fields (headers : List (String × HeaderValue)) :
    ∀ res : MemoryServerResponse,
      (applyHeaders res headers).totalBodyBytes = res.totalBodyBytes ∧
      (applyHeaders res headers).maxBodyBytes = res.maxBodyBytes := by
  induction headers with
  | nil => intro res; exact ⟨rfl, rfl⟩
  | cons p rest ih =>
    intro res
    cases hv : p.2 with
    | arr xs =>
      simp only [applyHeaders, hv]
      exact ⟨((ih _).1.trans (setHeader_body_fields _ _ _).1),
        ((ih _).2.trans (setHeader_body_fields _ _ _).2)⟩
    | str s =>
      simp only [applyHeaders, hv]
      exact ⟨((ih _).1.trans (setHeader_body_fields _ _ _).1),
        ((ih _).2.trans (setHeader_body_fields _ _ _).2)⟩
    | num n =>
      simp only [applyHeaders, hv]
      exact ⟨((ih _).1.trans (setHeader_body_fields _ _ _).1),
        ((ih _).2.trans (setHeader_body_fields _ _ _).2)⟩

theorem writeHead_body_fields (res : MemoryServerResponse) (sc : Nat)
    (sm : Option String) (hs : List (String × HeaderValue)) :
    (writeHead res sc sm hs).totalBodyBytes = res.totalBodyBytes ∧
    (writeHead res sc sm hs).maxBodyBytes = res.maxBodyBytes := by
  cases sm <;> simp only [writeHead] <;>
    exact ⟨(applyHeaders_body_fields hs _).1, (applyHeaders_body_fields hs _).2⟩

theorem runHandlerOps_overflow (ops : List HandlerOp) :
    ∀ res : MemoryServerResponse,
      res.totalBodyBytes ≤ res.maxBodyBytes →
      res.totalBodyBytes + totalBytesWritten ops > res.maxBodyBytes →
      ∃ e, runHandlerOps res ops = .error e ∧
        e.code = some "WORKER_RESPONSE_TOO_LARGE" := by
  induction ops with
  | nil =>
    intro res hle hgt
    simp [totalBytesWritten] at hgt
    omega
  | cons op rest ih =>
    intro res hle hgt
    cases op with
    | setHeaderOp name value =>
      simp only [runHandlerOps]
      apply ih
      · rw [(setHeader_body_fields res name value).1,
          (setHeader_body_fields res name value).2]
        exact hle
      · rw [(setHeader_body_fields res name value).1,
          (setHeader_body_fields res name value).2]
        simpa [totalBytesWritten] using hgt
    | writeHeadOp sc sm hs =>
      simp only [runHandlerOps]
      apply ih
      · rw [(writeHead_body_fields res sc sm hs).1, (writeHead_body_fields res sc sm hs).2]
        exact hle
      · rw [(writeHead_body_fields res sc sm hs).1, (writeHead_body_fields res sc sm hs).2]
        simpa [totalBytesWritten] using hgt
    | writeOp chunk =>
      simp only [runHandlerOps]
      by_cases hz : chunk.length = 0
      · rw [show appendChunk res chunk = .ok res by simp [appendChunk, hz]]
        apply ih res hle
        simpa [totalBytesWritten, hz] using hgt
      · by_cases hover : res.totalBodyBytes + chunk.length > res.maxBodyBytes
        · exact ⟨WorkerError.mk "Error"
            ("worker response too large: " ++ toString (res.totalBodyBytes + chunk.length) ++
              " bytes exceeds " ++ toString res.maxBodyBytes ++ " bytes")
            (some "WORKER_RESPONSE_TOO_LARGE"), by simp [appendChunk, hz, hover], rfl⟩
        · rw [show appendChunk res chunk = .ok { res with
              totalBodyBytes := res.totalBodyBytes + chunk.length,
              bodyChunks := res.bodyChunks ++ [chunk] } by simp [appendChunk, hz, hover]]
          apply ih
          · simpa using (by omega : res.totalBodyBytes + chunk.length ≤ res.maxBodyBytes)
          · simp only [totalBytesWritten] at hgt ⊢
            simp
            omega
    | endOp chunkOpt =>
      cases chunkOpt with
      | none =>
        simp only [runHandlerOps]
        apply ih res hle
        simpa [totalBytesWritten] using hgt
      | some chunk =>
        simp only [runHandlerOps]
        by_cases hz : chunk.length = 0
        · rw [show appendChunk res chunk = .ok res by simp [appendChunk, hz]]
          apply ih res hle
          simpa [totalBytesWritten, hz] using hgt
        · by_cases hover : res.totalBodyBytes + chunk.length > res.maxBodyBytes
          · exact ⟨WorkerError.mk "Error"
              ("worker response too large: " ++ toString (res.totalBodyBytes + chunk.length) ++
                " bytes exceeds " ++ toString res.maxBodyBytes ++ " bytes")
              (some "WORKER_RESPONSE_TOO_LARGE"), by simp [appendChunk, hz, hover], rfl⟩
          · rw [show appendChunk res chunk = .ok { res with
                totalBodyBytes := res.totalBodyBytes + chunk.length,
                bodyChunks := res.bodyChunks ++ [chunk] } by simp [appendChunk, hz, hover]]
            apply ih
            · simpa using (by omega : res.totalBodyBytes + chunk.length ≤ res.maxBodyBytes)
            · simp only [totalBytesWritten] at hgt ⊢
              simp
              omega

/-- C7: response-size enforcement: a single write whose bytes would push the
cumulative total over the cap fails with `WORKER_RESPONSE_TOO_LARGE` (and
mutates nothing, since the error is returned instead of a new sink), and a
handler whose writes total more than `maxResponseBytes` always yields an
error result with that code and no response — no partial body is
delivered. -/
theorem responseSizeCap_spec :
    (∀ (res : MemoryServerResponse) (chunk : List Nat), chunk.length ≠ 0 →
      res.totalBodyBytes + chunk.length > res.maxBodyBytes →
      ∃ e, appendChunk res chunk = .error e ∧
        e.code = some "WORKER_RESPONSE_TOO_LARGE") ∧
    (∀ (maxResponseBytes : Nat) (ops : List HandlerOp),
      totalBytesWritten ops > maxResponseBytes →
      ∃ e, executeHandler maxResponseBytes ops = WorkerExecResult.mk false none (some e) ∧
        e.code = some "WORKER_RESPONSE_TOO_LARGE") := by
  constructor
  · intro res chunk hz hover
    exact ⟨WorkerError.mk "Error"
      ("worker response too large: " ++ toString (res.totalBodyBytes + chunk.length) ++
        " bytes exceeds " ++ toString res.maxBodyBytes ++ " bytes")
      (some "WORKER_RESPONSE_TOO_LARGE"), by simp [appendChunk, hz, hover], rfl⟩
  · intro maxResponseBytes ops hgt
    obtain ⟨e, herr, hcode⟩ := runHandlerOps_overflow ops (initialResponse maxResponseBytes)
      (by simp [initialResponse]) (by simpa [initialResponse] using hgt)
    exact ⟨e, by simp [executeHandler, herr], hcode⟩

/-- Witness for C7: a five-byte body against a four-byte cap fails with the
size code and no response. -/
theorem responseSizeCap_spec_witness :
    (totalBytesWritten [HandlerOp.writeOp [1, 2, 3], HandlerOp.endOp (some [4, 5])] > 4) ∧
    (∃ e, executeHandler 4 [HandlerOp.writeOp [1, 2, 3], HandlerOp.endOp (some [4, 5])] =
      WorkerExecResult.mk false none (some e) ∧
      e.code = some "WORKER_RESPONSE_TOO_LARGE") :=
  ⟨by decide,
    responseSizeCap_spec.2 4 [HandlerOp.writeOp [1, 2, 3], HandlerOp.endOp (some [4, 5])]
      (by decide)⟩

theorem charToLower_of_not (c : Char) (h : ¬(65 ≤ c.toNat ∧ c.toNat ≤ 90)) :
    Char.toLower c = c := by
  unfold Char.toLower
  simp [h]

theorem charToLower_val (c : Char) (h : c.toNat ≥ 65 ∧ c.toNat ≤ 90) :
    (Char.toLower c).toNat = c.toNat + 32 := by
  unfold Char.toLower
  simp only [h, if_true]
  have hv : Nat.isValidChar (c.toNat + 32) := by left; omega
  simp [Char.ofNat, hv]
  rfl

theorem charToLower_idem (c : Char) :
    Char.toLower (Char.toLower c) = Char.toLower c := by
  by_cases h : 65 ≤ c.toNat ∧ c.toNat ≤ 90
  · have h1 : (Char.toLower c).toNat = c.toNat + 32 := charToLower_val c h
    exact charToLower_of_not _ (by omega)
  · rw [charToLower_of_not c h, charToLower_of_not c h]

theorem charList_toLower_idem (l : List Char) :
    (l.map Char.toLower).map Char.toLower = l.map Char.toLower := by
  induction l with
  | nil => rfl
  | cons c cs ih => simp [charToLower_idem c, ih]

theorem jsToLowerCase_idem (s : String) :
    jsToLowerCase (jsToLowerCase s) = jsToLowerCase s :=
  congrArg String.mk (charList_toLower_idem s.data)

/-- Every key of a header map is fixed under lowercasing. -/
def headerKeysLowercased (m : List (String × String)) : Prop :=
  ∀ kv ∈ m, jsToLowerCase kv.1 = kv.1

theorem assocSet_keys_lower {m : List (String × String)} {k v : String}
    (hm : headerKeysLowercased m) (hk : jsToLowerCase k = k) :
    headerKeysLowercased (assocSet m k v) := by
  unfold assocSet
  split
  · intro kv hkv
    obtain ⟨p, hp, hpe⟩ := List.mem_map.mp hkv
    by_cases h : p.1 == k
    · rw [if_pos h] at hpe
      rw [← hpe]
      exact hk
    · rw [if_neg h] at hpe
      rw [← hpe]
      exact hm p hp
  · intro kv hkv
    rcases List.mem_append.mp hkv with h | h
    · exact hm kv h
    · rw [List.mem_singleton] at h
      rw [h]
      exact hk

theorem setHeader_keys_lower (res : MemoryServerResponse) (name : String)
    (value : HeaderValue) (h : headerKeysLowercased res.headerMap) :
    headerKeysLowercased (setHeader res name value).headerMap := by
  cases value <;> simp only [setHeader] <;>
    exact assocSet_keys_lower h (jsToLowerCase_idem name)

theorem applyHeaders_keys_lower (headers : List (String × HeaderValue)) :
    ∀ res : MemoryServerResponse, headerKeysLowercased res.headerMap →
      headerKeysLowercased (applyHeaders res headers).headerMap := by
  induction headers with
  | nil => intro res h; exact h
  | cons p rest ih =>
    intro res h
    cases hv : p.2 with
    | arr xs =>
      simp only [applyHeaders, hv]
      exact ih _ (setHeader_keys_lower res p.1 _ h)
    | str s =>
      simp only [applyHeaders, hv]
      exact ih _ (setHeader_keys_lower res p.1 _ h)
    | num n =>
      simp only [applyHeaders, hv]
      exact ih _ (setHeader_keys_lower res p.1 _ h)

theorem writeHead_keys_lower (res : MemoryServerResponse) (sc : Nat)
    (sm : Option String) (hs : List (String × HeaderValue))
    (h : headerKeysLowercased res.headerMap) :
    headerKeysLowercased (writeHead res sc sm hs).headerMap := by
  cases sm <;> simp only [writeHead] <;> exact applyHeaders_keys_lower hs _ h

theorem appendChunk_headerMap (res : MemoryServerResponse) (chunk : List Nat)
    (res2 : MemoryServerResponse) (h : appendChunk res chunk = .ok res2) :
    res2.headerMap = res.headerMap := by
  unfold appendChunk at h
  split at h
  · cases h
    rfl
  · split at h
    · cases h
    · cases h
      rfl

theorem runHandlerOps_keys_lower (ops : List HandlerOp) :
    ∀ res res2 : MemoryServerResponse, headerKeysLowercased res.headerMap →
      runHandlerOps res ops = .ok res2 → headerKeysLowercased res2.headerMap := by
  induction ops with
  | nil =>
    intro res res2 h hrun
    cases hrun
    exact h
  | cons op rest ih =>
    intro res res2 h hrun
    cases op with
    | setHeaderOp name value =>
      exact ih _ _ (setHeader_keys_lower res name value h) hrun
    | writeHeadOp sc sm hs =>
      exact ih _ _ (writeHead_keys_lower res sc sm hs h) hrun
    | writeOp chunk =>
      simp only [runHandlerOps] at hrun
      cases hap : appendChunk res chunk with
      | error e => rw [hap] at hrun; cases hrun
      | ok resMid =>
        rw [hap] at hrun
        refine ih _ _ ?_ hrun
        rw [appendChunk_headerMap res chunk resMid hap]
        exact h
    | endOp chunkOpt =>
      cases chunkOpt with
      | none => exact ih _ _ h hrun
      | some chunk =>
        simp only [runHandlerOps] at hrun
        cases hap : appendChunk res chunk with
        | error e => rw [hap] at hrun; cases hrun
        | ok resMid =>
          rw [hap] at hrun
          refine ih _ _ ?_ hrun
          rw [appendChunk_headerMap res chunk resMid hap]
          exact h

theorem toSerializedResponse_headers (res : MemoryServerResponse) :
    (toSerializedResponse res).headers = res.headerMap := by
  unfold toSerializedResponse
  split <;> rfl

theorem assocGet_cons_of_neg {α : Type} (p : String × α) (rest : List (String × α))
    (k : String) (hb : (p.1 == k) = false) :
    assocGet (p :: rest) k = assocGet rest k := by
  simp [assocGet, List.find?_cons, hb]

theorem assocGet_assocSet_self {α : Type} (m : List (String × α)) (k : String) (v : α) :
    assocGet (assocSet m k v) k = some v := by
  induction m with
  | nil => simp [assocGet, assocSet]
  | cons p rest ih =>
    by_cases h : (p.1 == k) = true
    · have hcond : (List.find? (fun q => q.1 == k) (p :: rest)).isSome = true := by
        simp [List.find?_cons, h]
      have hset : assocSet (p :: rest) k v =
          (k, v) :: (rest.map fun q => if q.1 == k then (k, v) else q) := by
        unfold assocSet
        rw [if_pos hcond]
        simp [show p.1 = k from by simpa using h]
      rw [hset]
      simp [assocGet, List.find?_cons]
    · rw [Bool.not_eq_true] at h
      have hskip : List.find? (fun q => q.1 == k) (p :: rest) =
          List.find? (fun q => q.1 == k) rest := by
        simp [List.find?_cons, h]
      by_cases hfind : (List.find? (fun q => q.1 == k) rest).isSome = true
      · have hcond : (List.find? (fun q => q.1 == k) (p :: rest)).isSome = true := by
          rw [hskip]
          exact hfind
        have hset : assocSet (p :: rest) k v =
            (if p.1 == k then (k, v) else p) ::
              (rest.map fun q => if q.1 == k then (k, v) else q) := by
          unfold assocSet
          rw [if_pos hcond]
          rfl
        have hsetRest : assocSet rest k v =
            rest.map fun q => if q.1 == k then (k, v) else q := by
          unfold assocSet
          rw [if_pos hfind]
        rw [hset, if_neg (by simp [h]), assocGet_cons_of_neg p _ k h, ← hsetRest]
        exact ih
      · have hcond : ¬(List.find? (fun q => q.1 == k) (p :: rest)).isSome = true := by
          rw [hskip]
          exact hfind
        have hset : assocSet (p :: rest) k v = p :: (rest ++ [(k, v)]) := by
          unfold assocSet
          rw [if_neg hcond]
          rfl
        have hsetRest : assocSet rest k v = rest ++ [(k, v)] := by
          unfold assocSet
          rw [if_neg hfind]
        rw [hset, assocGet_cons_of_neg p _ k h, ← hsetRest]
        exact ih

/-- C10: header names set through `setHeader`/`writeHead` are stored
lowercased — every header key of a serialized worker response is fixed
under lowercasing — array header values are joined with `", "` into one
string, and `getHeader` reads back case-insensitively. -/
theorem responseHeaders_lowercase_spec :
    (∀ (maxBodyBytes : Nat) (ops : List HandlerOp) (res : MemoryServerResponse),
      runHandlerOps (initialResponse maxBodyBytes) ops = .ok res →
      ∀ kv ∈ (toSerializedResponse res).headers, jsToLowerCase kv.1 = kv.1) ∧
    (∀ (res : MemoryServerResponse) (name : String) (xs : List String),
      getHeader (setHeader res name (.arr xs)) name =
        some (String.intercalate ", " xs)) ∧
    (∀ (res : MemoryServerResponse) (n1 n2 : String),
      jsToLowerCase n1 = jsToLowerCase n2 → getHeader res n1 = getHeader res n2) := by
  refine ⟨?_, ?_, ?_⟩
  · intro maxBodyBytes ops res hrun kv hkv
    rw [toSerializedResponse_headers] at hkv
    exact runHandlerOps_keys_lower ops (initialResponse maxBodyBytes) res
      (by intro kv2 hkv2; cases hkv2) hrun kv hkv
  · intro res name xs
    simp only [getHeader, setHeader]
    exact assocGet_assocSet_self res.headerMap (jsToLowerCase name)
      (String.intercalate ", " xs)
  · intro res n1 n2 h
    simp only [getHeader, h]

/-- Witness for C10: a handler setting a mixed-case multi-value header and a
mixed-case content type yields a serialized header map with only lowercase
keys and the array joined with `", "`. -/
theorem responseHeaders_lowercase_spec_witness :
    (runHandlerOps (initialResponse 10)
        [HandlerOp.setHeaderOp "X-Multi" (.arr ["a", "b"]),
          HandlerOp.writeHeadOp 201 none [("Content-Type", .str "text/plain")]] =
      .ok (MemoryServerResponse.mk 201 "" 10
        [("x-multi", "a, b"), ("content-type", "text/plain")] [] 0)) ∧
    (∀ kv ∈ (toSerializedResponse (MemoryServerResponse.mk 201 "" 10
        [("x-multi", "a, b"), ("content-type", "text/plain")] [] 0)).headers,
      jsToLowerCase kv.1 = kv.1) :=
  ⟨by decide,
    responseHeaders_lowercase_spec.1 10
      [HandlerOp.setHeaderOp "X-Multi" (.arr ["a", "b"]),
        HandlerOp.writeHeadOp 201 none [("Content-Type", .str "text/plain")]]
      (MemoryServerResponse.mk 201 "" 10
        [("x-multi", "a, b"), ("content-type", "text/plain")] [] 0)
      (by decide)⟩

/-- Worker pool tuning options (`ExecutorOptions` in `options.ts`). -/
structure ExecutorOptions where
  requestTimeoutMs : Nat
  maxInflight : Nat
  memorySoftLimitMb : Nat
  memoryHardLimitMb : Nat
  memorySampleIntervalMs : Nat
  maxOldGenerationSizeMb : Nat
  maxYoungGenerationSizeMb : Nat
  stackSizeMb : Nat
deriving Repr, DecidableEq

/-- Partial overrides (`Partial<ExecutorOptions>`). -/
structure ExecutorOverrides where
  requestTimeoutMs : Option Nat
  maxInflight : Option Nat
  memorySoftLimitMb : Option Nat
  memoryHardLimitMb : Option Nat
  memorySampleIntervalMs : Option Nat
  maxOldGenerationSizeMb : Option Nat
  maxYoungGenerationSizeMb : Option Nat
  stackSizeMb : Option Nat
deriving Repr, DecidableEq

/-- Empty override set (`{}`). -/
def noOverrides : ExecutorOverrides :=
  ExecutorOverrides.mk none none none none none none none none

/-- From `options.ts` (`resolveExecutorOptions`): framework defaults filled
in for absent overrides. -/
def resolveExecutorOptions (overrides : ExecutorOverrides) : ExecutorOptions :=
  ExecutorOptions.mk
    (overrides.requestTimeoutMs.getD 3000)
    (overrides.maxInflight.getD 64)
    (overrides.memorySoftLimitMb.getD 96)
    (overrides.memoryHardLimitMb.getD 128)
    (overrides.memorySampleIntervalMs.getD 5000)
    (overrides.maxOldGenerationSizeMb.getD 128)
    (overrides.maxYoungGenerationSizeMb.getD 32)
    (overrides.stackSizeMb.getD 4)

/-- Dispatcher-side pool state (`HandlerWorkerPoolImpl` fields): inflight
correlation ids, the known version per file path, the closed flag, the
correlation counter, and restart statistics observed through the
snapshot. -/
structure PoolState where
  inflight : List String
  versionsByFilePath : List (String × String)
  closed : Bool
  requestCounter : Nat
  restartCount : Nat
  lastRestartReason : Option String
deriving Repr, DecidableEq

/-- Pool state before any request. -/
def initialPoolState : PoolState :=
  PoolState.mk [] [] false 0 0 none

/-- From `restart`/`performRestart`: a no-op on a closed pool; otherwise
clears the version table, rejects every outstanding inflight (destroying
their timers), terminates the worker and spawns a fresh one. -/
def performRestart (s : PoolState) (reason : String) : PoolState :=
  if s.closed then s
  else PoolState.mk [] [] false s.requestCounter (s.restartCount + 1) (some reason)

/-- Outcome of the synchronous admission path of `executeOnce`. -/
inductive AdmissionOutcome where
  | rejectedClosed
  | rejectedOverloaded (code : String)
  | granted (id : String) (restartedFirst : Bool)
deriving Repr, DecidableEq

/-- From `executeOnce` (admission): closed pools reject; at or above
`maxInflight` the request is rejected with `WORKER_OVERLOADED` rather than
queued; a known version differing from the payload's forces a restart
first; then the version is recorded, a correlation id allocated (the
time-based prefix of the source id is dropped, the counter drives
uniqueness), and the request becomes inflight with its timeout armed. -/
def executeOnceAdmission (opts : ExecutorOptions) (s : PoolState)
    (filePath version : String) : AdmissionOutcome × PoolState :=
  if s.closed then (.rejectedClosed, s)
  else if s.inflight.length ≥ opts.maxInflight then
    (.rejectedOverloaded "WORKER_OVERLOADED", s)
  else
    let versionChanged :=
      match assocGet s.versionsByFilePath filePath with
      | some knownVersion => knownVersion != version
      | none => false
    let s1 := if versionChanged then performRestart s "handler_version_changed" else s
    let s2 := PoolState.mk s1.inflight
      (assocSet s1.versionsByFilePath filePath version) s1.closed s1.requestCounter
      s1.restartCount s1.lastRestartReason
    (.granted (toString s2.requestCounter) versionChanged,
      PoolState.mk (s2.inflight ++ [toString s2.requestCounter]) s2.versionsByFilePath
        s2.closed (s2.requestCounter + 1) s2.restartCount s2.lastRestartReason)

/-- From `handleWorkerMessage` for result messages: unknown ids
(post-timeout or post-restart) are dropped; a known id is removed and its
timer cleared before resolving or rejecting the caller. -/
def handleWorkerResult (s : PoolState) (id : String) : PoolState :=
  if s.inflight.contains id then
    PoolState.mk (s.inflight.erase id) s.versionsByFilePath s.closed s.requestCounter
      s.restartCount s.lastRestartReason
  else s

/-- Outcome of a request-timeout timer firing. -/
inductive TimeoutOutcome where
  | fired (error : WorkerError)
  | stale
deriving Repr, DecidableEq

/-- From the `setTimeout` callback armed by `executeOnce`: delete the
inflight record, reject the caller with `WORKER_TIMEOUT`, restart the
worker. A timer whose id is no longer inflight was already cleared (the
result arrived, or a restart/close rejected the request). -/
def fireRequestTimeout (opts : ExecutorOptions) (s : PoolState) (id : String) :
    TimeoutOutcome × PoolState :=
  if s.inflight.contains id then
    (.fired (WorkerError.mk "Error"
        ("runtime worker timeout after " ++ toString opts.requestTimeoutMs ++ "ms")
        (some "WORKER_TIMEOUT")),
      performRestart
        (PoolState.mk (s.inflight.erase id) s.versionsByFilePath s.closed
          s.requestCounter s.restartCount s.lastRestartReason)
        "request_timeout")
  else (.stale, s)

/-- From `handleMemoryMessage`: a hard-limit breach restarts immediately; a
soft-limit breach restarts only with zero inflight. -/
def handleMemoryMessage (opts : ExecutorOptions) (s : PoolState) (heapUsed : Nat) :
    PoolState :=
  if heapUsed ≥ opts.memoryHardLimitMb * 1024 * 1024 then
    performRestart s "memory_hard_limit"
  else if heapUsed ≥ opts.memorySoftLimitMb * 1024 * 1024 ∧ s.inflight.length = 0 then
    performRestart s "memory_soft_limit"
  else s

/-- From the worker `error` listener: reject all inflight, then restart
unless closed. -/
def handleWorkerCrash (s : PoolState) : PoolState :=
  let s1 := PoolState.mk [] s.versionsByFilePath s.closed s.requestCounter
    s.restartCount s.lastRestartReason
  if s1.closed then s1 else performRestart s1 "worker_error"

/-- From `clearCache`: clear the version table and rotate the worker. -/
def clearCachePool (s : PoolState) : PoolState :=
  performRestart
    (PoolState.mk s.inflight [] s.closed s.requestCounter s.restartCount
      s.lastRestartReason)
    "cache_cleared"

/-- From `close`: idempotent; marks the pool closed and rejects all
inflight. -/
def closePool (s : PoolState) : PoolState :=
  if s.closed then s
  else PoolState.mk [] s.versionsByFilePath true s.requestCounter s.restartCount
    s.lastRestartReason

/-- Events driving one pool's state. -/
inductive PoolEvent where
  | submitExecute (filePath version : String)
  | workerResult (id : String)
  | requestTimeout (id : String)
  | memorySample (heapUsed : Nat)
  | workerCrash
  | cacheClear
  | closeEvent
deriving Repr, DecidableEq

/-- One dispatcher step of the pool. -/
def poolStep (opts : ExecutorOptions) (s : PoolState) : PoolEvent → PoolState
  | .submitExecute filePath version => (executeOnceAdmission opts s filePath version).2
  | .workerResult id => handleWorkerResult s id
  | .requestTimeout id => (fireRequestTimeout opts s id).2
  | .memorySample heapUsed => handleMemoryMessage opts s heapUsed
  | .workerCrash => handleWorkerCrash s
  | .cacheClear => clearCachePool s
  | .closeEvent => closePool s

/-- A pool run from the initial state. -/
def runPool (opts : ExecutorOptions) (events : List PoolEvent) : PoolState :=
  events.foldl (poolStep opts) initialPoolState

theorem erase_length_le {α : Type} [DecidableEq α] (l : List α) (a : α) :
    (l.erase a).length ≤ l.length :=
  (l.erase_sublist a).length_le

theorem performRestart_inflight_le (s : PoolState) (reason : String)
    (h : s.inflight.length ≤ n) : (performRestart s reason).inflight.length ≤ n := by
  unfold performRestart
  split
  · exact h
  · simp

theorem poolStep_inflight_le (opts : ExecutorOptions) (s : PoolState) (e : PoolEvent)
    (h : s.inflight.length ≤ opts.maxInflight) :
    (poolStep opts s e).inflight.length ≤ opts.maxInflight := by
  cases e with
  | submitExecute filePath version =>
    simp only [poolStep, executeOnceAdmission]
    by_cases hc : s.closed = true
    · simp only [hc, if_true]
      exact h
    · rw [Bool.not_eq_true] at hc
      by_cases hover : s.inflight.length ≥ opts.maxInflight
      · simp only [hc, Bool.false_eq_true, if_false, hover, if_true]
        exact h
      · simp only [hc, Bool.false_eq_true, if_false, hover, if_true]
        split
        · simp [performRestart, hc]
          omega
        · simp
          omega
  | workerResult id =>
    simp only [poolStep, handleWorkerResult]
    split
    · exact le_trans (erase_length_le s.inflight id) h
    · exact h
  | requestTimeout id =>
    simp only [poolStep, fireRequestTimeout]
    split
    · exact performRestart_inflight_le _ _
        (le_trans (erase_length_le s.inflight id) h)
    · exact h
  | memorySample heapUsed =>
    simp only [poolStep, handleMemoryMessage]
    split
    · exact performRestart_inflight_le _ _ h
    · split
      · exact performRestart_inflight_le _ _ h
      · exact h
  | workerCrash =>
    simp only [poolStep, handleWorkerCrash]
    split
    · simp
    · exact performRestart_inflight_le _ _ (by simp)
  | cacheClear =>
    simp only [poolStep, clearCachePool]
    exact performRestart_inflight_le _ _ h
  | closeEvent =>
    simp only [poolStep, closePool]
    split
    · exact h
    · simp

/-- C3: across any dispatcher event sequence a pool's inflight set never
exceeds `maxInflight`, and an execute submitted to an open pool whose
inflight count is already at (or beyond) `maxInflight` is rejected with
code `WORKER_OVERLOADED`, leaving the state unchanged — the
`(maxInflight+1)`-th concurrent admission fails rather than queues. -/
theorem pool_inflight_bounded (opts : ExecutorOptions) (events : List PoolEvent) :
    (runPool opts events).inflight.length ≤ opts.maxInflight ∧
    (∀ (s : PoolState) (filePath version : String), s.closed = false →
      opts.maxInflight ≤ s.inflight.length →
      (executeOnceAdmission opts s filePath version).1 =
        .rejectedOverloaded "WORKER_OVERLOADED" ∧
      (executeOnceAdmission opts s filePath version).2 = s) := by
  constructor
  · suffices hstep : ∀ (evs : List PoolEvent) (s : PoolState),
        s.inflight.length ≤ opts.maxInflight →
        (evs.foldl (poolStep opts) s).inflight.length ≤ opts.maxInflight by
      exact hstep events initialPoolState (by simp [initialPoolState])
    intro evs
    induction evs with
    | nil => intro s hs; exact hs
    | cons e rest ih =>
      intro s hs
      exact ih _ (poolStep_inflight_le opts s e hs)
  · intro s filePath version hclosed hover
    constructor <;> simp [executeOnceAdmission, hclosed, hover]

/-- Witness for C3: with `maxInflight = 1`, one accepted execute fills the
pool and a second admission is rejected with `WORKER_OVERLOADED` without
touching the state. -/
theorem pool_inflight_bounded_witness :
    ((runPool (resolveExecutorOptions
        (ExecutorOverrides.mk none (some 1) none none none none none none))
        [PoolEvent.submitExecute "f.mjs" "1:1"]).inflight.length ≤ 1) ∧
    ((executeOnceAdmission (resolveExecutorOptions
          (ExecutorOverrides.mk none (some 1) none none none none none none))
        (PoolState.mk ["0"] [("f.mjs", "1:1")] false 1 0 none) "g.mjs" "1:1").1 =
      .rejectedOverloaded "WORKER_OVERLOADED") :=
  ⟨(pool_inflight_bounded (resolveExecutorOptions
      (ExecutorOverrides.mk none (some 1) none none none none none none))
      [PoolEvent.submitExecute "f.mjs" "1:1"]).1,
    ((pool_inflight_bounded (resolveExecutorOptions
        (ExecutorOverrides.mk none (some 1) none none none none none none)) []).2
      (PoolState.mk ["0"] [("f.mjs", "1:1")] false 1 0 none) "g.mjs" "1:1"
      (by decide) (by decide)).1⟩

/-- C6: when the request-timeout timer fires for a dispatched execute that
is still inflight in an open pool, the inflight record is removed, the
caller is failed with code `WORKER_TIMEOUT` (the message names the
configured timeout), and the worker is restarted with reason
`request_timeout` — the restart clears the version table and rejects any
remaining inflight requests. -/
theorem requestTimeout_spec (opts : ExecutorOptions) (s : PoolState) (id : String)
    (hmem : s.inflight.contains id = true) (hopen : s.closed = false) :
    (fireRequestTimeout opts s id).1 =
      .fired (WorkerError.mk "Error"
        ("runtime worker timeout after " ++ toString opts.requestTimeoutMs ++ "ms")
        (some "WORKER_TIMEOUT")) ∧
    (fireRequestTimeout opts s id).2.inflight = [] ∧
    (fireRequestTimeout opts s id).2.versionsByFilePath = [] ∧
    (fireRequestTimeout opts s id).2.restartCount = s.restartCount + 1 ∧
    (fireRequestTimeout opts s id).2.lastRestartReason = some "request_timeout" := by
  have hmem2 : id ∈ s.inflight := by simpa using hmem
  simp [fireRequestTimeout, hmem2, performRestart, hopen]

/-- Witness for C6: a pool with one inflight request times it out, removes
it, and restarts. -/
theorem requestTimeout_spec_witness :
    (fireRequestTimeout (resolveExecutorOptions noOverrides)
        (PoolState.mk ["0"] [("f.mjs", "1:1")] false 1 0 none) "0").1 =
      .fired (WorkerError.mk "Error" "runtime worker timeout after 3000ms"
        (some "WORKER_TIMEOUT")) ∧
    (fireRequestTimeout (resolveExecutorOptions noOverrides)
        (PoolState.mk ["0"] [("f.mjs", "1:1")] false 1 0 none) "0").2.inflight = [] ∧
    (fireRequestTimeout (resolveExecutorOptions noOverrides)
        (PoolState.mk ["0"] [("f.mjs", "1:1")] false 1 0 none) "0").2.versionsByFilePath
      = [] ∧
    (fireRequestTimeout (resolveExecutorOptions noOverrides)
        (PoolState.mk ["0"] [("f.mjs", "1:1")] false 1 0 none) "0").2.restartCount
      = 0 + 1 ∧
    (fireRequestTimeout (resolveExecutorOptions noOverrides)
        (PoolState.mk ["0"] [("f.mjs", "1:1")] false 1 0 none) "0").2.lastRestartReason
      = some "request_timeout" :=
  requestTimeout_spec (resolveExecutorOptions noOverrides)
    (PoolState.mk ["0"] [("f.mjs", "1:1")] false 1 0 none) "0" (by decide) (by decide)

/-- Worker bootstrap data injected via `workerData`
(`WorkerBootstrapData` in the worker sources; every field optional). JS
numbers are embedded as integers (`Math.floor` is the identity there). -/
structure WorkerBootstrapData where
  memorySampleIntervalMs : Option Int
  maxResponseBytes : Option Int
  workerId : Option String
  dbSet : Option (List String)
deriving Repr, DecidableEq

/-- Modelled from the spec: the pool iteration whose `ensureWorker` spawns
the db-aware worker is missing from the sources (only its callers —
`createFileRuntime` passing per-binding `meta` — and the worker-side
`WorkerBootstrapData` declaration are present). Per the spec, on boot the
worker receives `{ memorySampleIntervalMs, maxResponseBytes, workerId,
dbSet }` from its supervising pool's options and binding. -/
def ensureWorkerBootstrap (memorySampleIntervalMs maxResponseBytes : Int)
    (workerId : String) (dbSet : List String) : WorkerBootstrapData :=
  WorkerBootstrapData.mk (some memorySampleIntervalMs) (some maxResponseBytes)
    (some workerId) (some dbSet)

/-- From the worker bootstrap (`memorySampleIntervalMs` resolution): positive
numbers are taken (floored), anything else falls back to 5000. -/
def resolveMemorySampleIntervalMs (bootstrapData : Option WorkerBootstrapData) : Int :=
  match bootstrapData with
  | some b =>
    match b.memorySampleIntervalMs with
    | some n => if n > 0 then n else 5000
    | none => 5000
  | none => 5000

/-- From the worker bootstrap (`maxResponseBytes` resolution): positive
numbers are taken (floored), anything else falls back to 2 MiB. -/
def resolveMaxResponseBytes (bootstrapData : Option WorkerBootstrapData) : Int :=
  match bootstrapData with
  | some b =>
    match b.maxResponseBytes with
    | some n => if n > 0 then n else 2 * 1024 * 1024
    | none => 2 * 1024 * 1024
  | none => 2 * 1024 * 1024

/-- From the worker bootstrap (`workerId` resolution): strings are taken,
anything else falls back to `runtime-worker`. -/
def resolveWorkerId (bootstrapData : Option WorkerBootstrapData) : String :=
  match bootstrapData with
  | some b =>
    match b.workerId with
    | some id => id
    | none => "runtime-worker"
  | none => "runtime-worker"

/-- From the worker bootstrap (`workerDbSet` resolution):
`normalizeDbList(bootstrapData?.dbSet)`. -/
def resolveWorkerDbSet (bootstrapData : Option WorkerBootstrapData) : List String :=
  normalizeDbList
    (match bootstrapData with
      | some b =>
        match b.dbSet with
        | some xs => DbInput.arr xs
        | none => DbInput.absent
      | none => DbInput.absent)

/-- C9 (spec-modelled pool side): a worker booted with the bootstrap data
its supervising pool sends — `{ memorySampleIntervalMs, maxResponseBytes,
workerId, dbSet }` — resolves exactly the configured sampling interval,
response-size cap, identity, and database capability set (the binding's
dbSet is already normalized, which the last hypothesis captures). -/
theorem workerBootstrap_params_applied (interval maxB : Int) (wid : String)
    (dbs : List String) (hInterval : interval > 0) (hMax : maxB > 0)
    (hNorm : normalizeDbSet dbs = dbs) :
    resolveMemorySampleIntervalMs (some (ensureWorkerBootstrap interval maxB wid dbs))
      = interval ∧
    resolveMaxResponseBytes (some (ensureWorkerBootstrap interval maxB wid dbs)) = maxB ∧
    resolveWorkerId (some (ensureWorkerBootstrap interval maxB wid dbs)) = wid ∧
    resolveWorkerDbSet (some (ensureWorkerBootstrap interval maxB wid dbs)) = dbs := by
  refine ⟨?_, ?_, rfl, ?_⟩
  · simp [resolveMemorySampleIntervalMs, ensureWorkerBootstrap, hInterval]
  · simp [resolveMaxResponseBytes, ensureWorkerBootstrap, hMax]
  · simpa [resolveWorkerDbSet, ensureWorkerBootstrap, normalizeDbList] using hNorm

/-- Witness for C9: the defaults-like configuration
`(5000, 2 MiB, "w1", ["db1"])` is reproduced inside the worker. -/
theorem workerBootstrap_params_applied_witness :
    resolveMemorySampleIntervalMs
        (some (ensureWorkerBootstrap 5000 2097152 "w1" ["db1"])) = 5000 ∧
    resolveMaxResponseBytes (some (ensureWorkerBootstrap 5000 2097152 "w1" ["db1"]))
      = 2097152 ∧
    resolveWorkerId (some (ensureWorkerBootstrap 5000 2097152 "w1" ["db1"])) = "w1" ∧
    resolveWorkerDbSet (some (ensureWorkerBootstrap 5000 2097152 "w1" ["db1"]))
      = ["db1"] :=
  workerBootstrap_params_applied 5000 2097152 "w1" ["db1"]
    (by decide) (by decide) (by decide)

end Fluxion
